import Mathlib

/-!
Verification of the SEC filings extractor (src/SEC.py and src/SEC1.py).

The Python code is translated into a shallow embedding: Python strings are
modelled as `String`/`List Char`, Python floats as exact rationals (`ℚ`),
`None`-returning functions as `Option`, and each network fetch as an explicit
input (`HttpResult`/`FetchLines`) so that the post-fetch logic is a pure
function of the response.  All recursions are structural so that concrete
runs reduce inside the kernel (`decide`).
-/

/-! ## Python string primitives -/

/-- Whether `pat` occurs contiguously in `l`: the scan behind Python's
`pat in s` on strings (first-position-match search). -/
def containsSub (pat : List Char) : List Char → Bool
  | [] => pat.isEmpty
  | c :: rest => pat.isPrefixOf (c :: rest) || containsSub pat rest

/-- Python `pat in s` for strings: substring containment. -/
def pyIn (pat s : String) : Bool := containsSub pat.data s.data

/-- Python `str.strip()` (whitespace from both ends) on the character list. -/
def pyStrip (cs : List Char) : List Char :=
  ((cs.dropWhile Char.isWhitespace).reverse.dropWhile Char.isWhitespace).reverse

/-- Split a character list at every character satisfying `p`; pieces keep
order and empty pieces are kept, as in Python's `s.split(sep)`. -/
def splitOnPred (p : Char → Bool) : List Char → List (List Char)
  | [] => [[]]
  | c :: rest =>
    match splitOnPred p rest with
    | [] => [[]]
    | t :: ts => if p c then [] :: t :: ts else (c :: t) :: ts

/-- Python `s.split(sep)` for a one-character separator. -/
def splitOnChar (sep : Char) (cs : List Char) : List (List Char) :=
  splitOnPred (fun c => c == sep) cs

/-- Python `str.split()` with no argument: split on whitespace runs and drop
the empty pieces. -/
def pySplitChars (cs : List Char) : List (List Char) :=
  (splitOnPred Char.isWhitespace cs).filter (fun t => t ≠ [])

/-- Python `str.split()` on a `String`. -/
def pySplit (s : String) : List String :=
  (pySplitChars s.data).map (fun l => String.mk l)

/-- Python `str.upper()` (character-wise, as for the ASCII form types used). -/
def pyUpper (s : String) : String := String.mk (s.data.map Char.toUpper)

/-! ## src/SEC.py — Filing Index Resolver (`fetch_10q_filings`, lines 38-60) -/

/-- One entry of the list `fetch_10q_filings` builds (src/SEC.py lines 50-55):
the dict with keys Company, CIK, Date, URL. -/
structure FilingRecord where
  company : String
  cik : String
  date : String
  url : String
deriving DecidableEq, Repr

def BASE_URL : String := "https://www.sec.gov"

/-- `urljoin(BASE_URL, part)` for the parts reaching it, which always start
with "/": the base scheme and authority followed by the absolute path. -/
def urljoinBase (part : String) : String := BASE_URL ++ part

/-- The inner `for part in parts: if part.startswith('/Archives/edgar/data/')
... break` of src/SEC.py lines 48-56: the first qualifying token. -/
def firstArchivesPart : List String → Option String
  | [] => none
  | p :: ps =>
    if ("/Archives/edgar/data/".data.isPrefixOf p.data) then some p
    else firstArchivesPart ps

/-- Records produced from one index line (src/SEC.py lines 46-56): a line
yields one record when it contains both '10-Q' and 'edgar/data/' and some
whitespace token starts with '/Archives/edgar/data/'; otherwise none. -/
def processIndexLine (line : String) : List FilingRecord :=
  if pyIn "10-Q" line && pyIn "edgar/data/" line then
    match firstArchivesPart (pySplit line) with
    | some part => [⟨"Unknown", "Unknown", "Unknown", urljoinBase part⟩]
    | none => []
  else []

/-- The outcome of an HTTP fetch in the embedding: the response body on
success, or the exception text when the request fails or `raise_for_status`
raises on a non-2xx status (both are `requests.exceptions.RequestException`s,
the class the source catches). -/
inductive HttpResult where
  | success (body : String)
  | failure (error : String)
deriving DecidableEq, Repr

/-- `fetch_10q_filings` (src/SEC.py lines 38-60) as a function of the fetch
outcome: on success every line of the body (split on newlines) is scanned by
`processIndexLine`; on any `RequestException` the except-branch reports the
error and returns the empty list. -/
def fetch_10q_filings (resp : HttpResult) : List FilingRecord :=
  match resp with
  | .success body =>
    ((splitOnChar '\n' body.data).map (fun l => processIndexLine (String.mk l))).flatten
  | .failure _ => []

/-! ## src/SEC.py — Document Extractor (`extract_section`, lines 77-103)

The BeautifulSoup pass is abstracted to its result: the ordered sequence of
the elements' stripped texts, one line each (the spec's "flattened line
sequence"; the appended `element.prettify()` is identified with the line). -/

/-- The scanning loop of `extract_section` (src/SEC.py lines 94-101): for each
line, `capturing` turns on at a line containing `sectionName`; while on, the
line is appended; a line containing `endMarker` stops the scan after its own
append check, whether or not capturing has begun. -/
def extractLoop (sectionName endMarker : String) : List String → Bool → List String
  | [], _ => []
  | l :: rest, capturing =>
    let cap := capturing || pyIn sectionName l
    let acc := if cap then [l] else []
    if pyIn endMarker l then acc
    else acc ++ extractLoop sectionName endMarker rest cap

/-- `extract_section` (src/SEC.py lines 77-103) on the flattened lines:
`return extracted_section if extracted_section else None`. -/
def extract_section (lines : List String) (sectionName endMarker : String) :
    Option (List String) :=
  let r := extractLoop sectionName endMarker lines false
  if r = [] then none else some r

/-- The keyword list of `smart_extract` (src/SEC.py line 122). -/
def smartKeywords : List String :=
  ["Revenue", "Net Income", "EPS", "Risk Factors", "Management Discussion"]

/-- Success of the dollar-amount regex search of src/SEC.py line 124 (a
dollar sign, one to three digits, optional comma groups, optional cents):
since every group after the first digit is optional, `re.search` succeeds
exactly when some dollar sign is immediately followed by a digit. -/
def hasDollarAmount (s : String) : Bool :=
  (s.data.zip s.data.tail).any (fun p => p.1 = '$' && p.2.isDigit)

/-- `smart_extract` (src/SEC.py lines 106-126) after the fetch and sentence
tokenisation: the sentences containing one of the keywords, followed by (a
second pass, appended even when already present) the sentences matching the
dollar-amount pattern. -/
def smart_extract (sentences : List String) : List String :=
  (sentences.filter fun s => smartKeywords.any fun k => pyIn k s)
    ++ sentences.filter (fun s => hasDollarAmount s)

/-- The Task 2 dispatch (src/SEC.py lines 161-165): `extract_section` only
when both marker fields are non-empty (Python truthiness), otherwise
`smart_extract`. -/
def task2_dispatch (lines : List String) (sectionName endMarker : String) :
    Option (List String) :=
  if sectionName ≠ "" ∧ endMarker ≠ "" then extract_section lines sectionName endMarker
  else some (smart_extract lines)

/-- A fetch outcome already flattened to lines, for `extract_section`'s
full path (src/SEC.py lines 77-103): an invalid URL or a failed request
returns `None` before any scanning. -/
inductive FetchLines where
  | success (lines : List String)
  | failure (error : String)
deriving DecidableEq, Repr

/-- `extract_section` including its fetch prologue (src/SEC.py lines 78-88):
`None` on an invalid URL or failed request, the scan result otherwise. -/
def extract_section_http (resp : FetchLines) (sectionName endMarker : String) :
    Option (List String) :=
  match resp with
  | .failure _ => none
  | .success lines => extract_section lines sectionName endMarker

/-! ## Lemmas about the section scan -/

/-- The elements of `xs` up to and including the first one satisfying `p`
(all of `xs` when none does). -/
def takeUntilIncl {α : Type} (p : α → Bool) : List α → List α
  | [] => []
  | x :: xs => if p x then [x] else x :: takeUntilIncl p xs

theorem takeUntilIncl_prefix {α : Type} (p : α → Bool) :
    ∀ xs : List α, takeUntilIncl p xs <+: xs
  | [] => List.prefix_refl _
  | x :: xs => by
    simp only [takeUntilIncl]
    split
    · exact ⟨xs, rfl⟩
    · exact List.cons_prefix_cons.mpr ⟨rfl, takeUntilIncl_prefix p xs⟩

/-- Once capturing, the loop appends every line up to and including the
first one containing the end marker. -/
theorem extractLoop_capturing (s e : String) :
    ∀ post : List String,
      extractLoop s e post true = takeUntilIncl (fun l => pyIn e l) post
  | [] => rfl
  | l :: rest => by
    simp only [extractLoop, takeUntilIncl, Bool.true_or, if_true]
    split
    · rfl
    · simp [extractLoop_capturing s e rest]

/-- Whatever the state, the loop's output is a contiguous run of the input. -/
theorem extractLoop_contiguous (s e : String) :
    ∀ (lines : List String) (cap : Bool), extractLoop s e lines cap <:+: lines
  | [], _ => List.infix_refl _
  | l :: rest, cap => by
    simp only [extractLoop]
    by_cases hcap : (cap || pyIn s l) = true
    · rw [hcap]
      simp only [if_true]
      split
      · exact ⟨[], rest, rfl⟩
      · refine List.IsPrefix.isInfix ?_
        rw [extractLoop_capturing]
        exact List.cons_prefix_cons.mpr ⟨rfl, takeUntilIncl_prefix _ rest⟩
    · rw [Bool.not_eq_true] at hcap
      rw [hcap]
      simp only [Bool.false_eq_true, if_false, List.nil_append]
      split
      · exact ⟨[l], rest, rfl⟩
      · exact List.infix_cons (extractLoop_contiguous s e rest false)

/-- When no line contains the start marker, nothing is ever captured. -/
theorem extractLoop_eq_nil (s e : String) :
    ∀ lines : List String, (∀ x ∈ lines, pyIn s x = false) →
      extractLoop s e lines false = []
  | [], _ => rfl
  | l :: rest, h => by
    simp only [extractLoop, h l (List.mem_cons_self l rest), Bool.or_false,
      Bool.false_eq_true, if_false, List.nil_append]
    split
    · rfl
    · exact extractLoop_eq_nil s e rest (fun x hx => h x (List.mem_cons_of_mem l hx))

/-- The span the loop captures: scanning past a start-marker-free,
end-marker-free prefix, capture begins at the first start-marker line and
runs up to and including the first end-marker line at or after it. -/
theorem extractLoop_span (s e : String) :
    ∀ (pre : List String) (l : String) (post : List String),
      (∀ x ∈ pre, pyIn s x = false) → (∀ x ∈ pre, pyIn e x = false) →
      pyIn s l = true →
      extractLoop s e (pre ++ l :: post) false =
        l :: (if pyIn e l = true then [] else takeUntilIncl (fun x => pyIn e x) post)
  | [], l, post, _, _, hs => by
    simp only [List.nil_append, extractLoop, hs, Bool.or_true, if_true]
    split
    · rfl
    · simp [extractLoop_capturing]
  | x :: pre, l, post, hs, he, hl => by
    simp only [List.cons_append, extractLoop, hs x (List.mem_cons_self x pre),
      he x (List.mem_cons_self x pre), Bool.or_false, Bool.false_eq_true, if_false,
      List.nil_append]
    exact extractLoop_span s e pre l post
      (fun y hy => hs y (List.mem_cons_of_mem x hy))
      (fun y hy => he y (List.mem_cons_of_mem x hy)) hl

/-- A line containing the end marker but not the start marker, reached before
any start-marker line, stops the scan with nothing captured. -/
theorem extractLoop_break (s e : String) :
    ∀ (pre : List String) (l : String) (post : List String),
      (∀ x ∈ pre, pyIn s x = false) → pyIn s l = false → pyIn e l = true →
      extractLoop s e (pre ++ l :: post) false = []
  | [], l, post, _, hsl, hel => by
    simp only [List.nil_append, extractLoop, hsl, Bool.or_false, Bool.false_eq_true,
      if_false, hel, if_true, List.nil_append]
  | x :: pre, l, post, hs, hsl, hel => by
    simp only [List.cons_append, extractLoop, hs x (List.mem_cons_self x pre),
      Bool.or_false, Bool.false_eq_true, if_false, List.nil_append]
    split
    · rfl
    · exact extractLoop_break s e pre l post
        (fun y hy => hs y (List.mem_cons_of_mem x hy)) hsl hel

/-- Shared helper: with no start-marker line, `extract_section` returns
`None` (src/SEC.py line 103: nothing captured, the falsy empty list). -/
theorem extract_section_eq_none_of_no_start (lines : List String) (s e : String)
    (h : ∀ x ∈ lines, pyIn s x = false) : extract_section lines s e = none := by
  simp [extract_section, extractLoop_eq_nil s e lines h]

/-- The fields of any record a scanned index line yields: Company, CIK and
Date are the literal "Unknown" (src/SEC.py lines 50-53). -/
theorem mem_processIndexLine {f : FilingRecord} {line : String}
    (h : f ∈ processIndexLine line) :
    f.company = "Unknown" ∧ f.cik = "Unknown" ∧ f.date = "Unknown" := by
  unfold processIndexLine at h
  split at h
  · cases hm : firstArchivesPart (pySplit line) with
    | none => rw [hm] at h; simp at h
    | some part =>
      rw [hm] at h
      simp only [List.mem_singleton] at h
      subst h
      exact ⟨rfl, rfl, rfl⟩
  · simp at h

/-! ## Claim theorems for src/SEC.py -/

/-- C1 (amended): for non-empty markers, `extract_section` captures from the
first line containing `startMarker` up to and INCLUDING the first line at or
after it containing `endMarker` (to the end when none does) — and a line
containing `endMarker` but not `startMarker`, reached before any start-marker
line, terminates the scan with an absent result instead of being ignored. -/
theorem C1_extract_section_span (s e : String) (pre : List String) (l : String)
    (post : List String) (hpre : ∀ x ∈ pre, pyIn s x = false) :
    (pyIn s l = true → (∀ x ∈ pre, pyIn e x = false) →
      extract_section (pre ++ l :: post) s e =
        some (l :: if pyIn e l = true then []
          else takeUntilIncl (fun x => pyIn e x) post))
    ∧ (pyIn s l = false → pyIn e l = true →
      extract_section (pre ++ l :: post) s e = none) := by
  constructor
  · intro hs he
    unfold extract_section
    rw [extractLoop_span s e pre l post hpre he hs]
    simp
  · intro hs he
    unfold extract_section
    rw [extractLoop_break s e pre l post hpre hs he]
    simp

/-- Counterexample for C1: on the spec's own scenario B document the code
returns the end-marker line as well, not the end-exclusive span the claim
states. -/
theorem C1_counterexample :
    extract_section
        ["Item 1. Business", "Our company...", "Item 1A. Risk Factors",
          "Risks include..."] "Item 1. Business" "Item 1A. Risk Factors" ≠
      some ["Item 1. Business", "Our company..."] := by decide

/-- Witness for C1: the amended span theorem evaluated on scenario B. -/
theorem C1_witness :
    extract_section
        ["Item 1. Business", "Our company...", "Item 1A. Risk Factors",
          "Risks include..."] "Item 1. Business" "Item 1A. Risk Factors" =
      some ["Item 1. Business", "Our company...", "Item 1A. Risk Factors"] := by
  have h := (C1_extract_section_span "Item 1. Business" "Item 1A. Risk Factors" []
    "Item 1. Business" ["Our company...", "Item 1A. Risk Factors", "Risks include..."]
    (by decide)).1 (by decide) (by decide)
  exact h.trans (by decide)

/-- C2 (amended): with both markers empty the Task 2 dispatch calls
`smart_extract`, whose result holds exactly the sentences containing a
financial keyword or matching the dollar-amount pattern — a filtered
selection drawn from the document, not the unmodified full sequence. -/
theorem C2_empty_markers_filter (lines : List String) (r : List String)
    (h : task2_dispatch lines "" "" = some r) :
    (∀ x ∈ r, x ∈ lines ∧
      ((smartKeywords.any fun k => pyIn k x) = true ∨ hasDollarAmount x = true))
    ∧ ∀ x ∈ lines,
        ((smartKeywords.any fun k => pyIn k x) = true ∨ hasDollarAmount x = true) →
        x ∈ r := by
  have hr : smart_extract lines = r := by
    simpa [task2_dispatch] using h
  subst hr
  constructor
  · intro x hx
    rcases List.mem_append.mp hx with h1 | h1
    · rcases List.mem_filter.mp h1 with ⟨hm, hp⟩
      exact ⟨hm, Or.inl hp⟩
    · rcases List.mem_filter.mp h1 with ⟨hm, hp⟩
      exact ⟨hm, Or.inr hp⟩
  · intro x hx hor
    rcases hor with hp | hp
    · exact List.mem_append.mpr (Or.inl (List.mem_filter.mpr ⟨hx, hp⟩))
    · exact List.mem_append.mpr (Or.inr (List.mem_filter.mpr ⟨hx, hp⟩))

/-- Counterexample for C2: a document whose only line has no keyword and no
dollar amount comes back empty, not unmodified. -/
theorem C2_counterexample :
    task2_dispatch ["Hello world"] "" "" = some [] ∧
    some ([] : List String) ≠ some ["Hello world"] := by decide

/-- Witness for C2: a keyword sentence survives the empty-marker dispatch. -/
theorem C2_witness :
    "Revenue was good" ∈ smart_extract ["Revenue was good", "nothing here"] :=
  (C2_empty_markers_filter ["Revenue was good", "nothing here"]
      (smart_extract ["Revenue was good", "nothing here"]) (by decide)).2
    "Revenue was good" (by decide) (by decide)

/-- C3 (amended): when `startMarker` matches no line, `extract_section` does
not raise but returns `None` — an absent result, not an extraction from the
beginning of the document. -/
theorem C3_no_start_returns_none (lines : List String) (s e : String)
    (h : ∀ x ∈ lines, pyIn s x = false) : extract_section lines s e = none :=
  extract_section_eq_none_of_no_start lines s e h

/-- Counterexample for C3: with an unmatched start marker the result is
absent (`none`), not the document from line 0 onward. -/
theorem C3_counterexample :
    extract_section ["Hello world"] "Item 7" "Item 8" = none := by decide

/-- Witness for C3. -/
theorem C3_witness :
    extract_section ["General text", "more text"] "Item 2" "Item 3" = none :=
  C3_no_start_returns_none ["General text", "more text"] "Item 2" "Item 3" (by decide)

/-- C4 (amended): an index line produces one record exactly when it contains
'10-Q' and 'edgar/data/' and some whitespace token starts with
'/Archives/edgar/data/' (first conjunct: if all three hold, exactly the one
record with the joined URL; second conjunct: if any fails, no record);
every record any fetch ever yields has Company, CIK and Date all the literal
"Unknown" — no positional end-anchored field assignment happens. -/
theorem C4_index_line_record (line : String) :
    (∀ part, pyIn "10-Q" line = true → pyIn "edgar/data/" line = true →
      firstArchivesPart (pySplit line) = some part →
      processIndexLine line =
        [⟨"Unknown", "Unknown", "Unknown", urljoinBase part⟩]) ∧
    (pyIn "10-Q" line = false ∨ pyIn "edgar/data/" line = false ∨
      firstArchivesPart (pySplit line) = none →
      processIndexLine line = []) ∧
    (∀ (resp : HttpResult) (f : FilingRecord), f ∈ fetch_10q_filings resp →
      f.company = "Unknown" ∧ f.cik = "Unknown" ∧ f.date = "Unknown") := by
  refine ⟨?_, ?_, ?_⟩
  · intro part h10 hed hpart
    simp [processIndexLine, h10, hed, hpart]
  · intro h
    rcases h with h | h | h
    · simp [processIndexLine, h]
    · simp [processIndexLine, h]
    · by_cases hc : (pyIn "10-Q" line && pyIn "edgar/data/" line) = true
      · simp [processIndexLine, hc, h]
      · simp [processIndexLine, hc]
  · intro resp f hf
    cases resp with
    | failure err => simp [fetch_10q_filings] at hf
    | success body =>
      simp only [fetch_10q_filings, List.mem_flatten, List.mem_map] at hf
      obtain ⟨_, ⟨l, _, rfl⟩, hfl⟩ := hf
      exact mem_processIndexLine hfl

/-- Counterexample for C4: the spec's scenario-A index line produces no
record at all (no token starts with '/Archives/edgar/data/'), let alone one
with `centralIndexKey == "320193"`. -/
theorem C4_counterexample :
    fetch_10q_filings (.success
      "edgar/data/320193/0000320193-24-000010-index.htm 10-Q 320193 2024-02-01") =
      [] := by decide

/-- Witness for C4: a line carrying an '/Archives/edgar/data/' token yields
the one all-Unknown record with the joined URL, and the scenario-A line —
whose path token lacks the leading '/Archives' — yields no record. -/
theorem C4_witness :
    processIndexLine "x 10-Q edgar/data/ /Archives/edgar/data/320193/a.htm y" =
      [⟨"Unknown", "Unknown", "Unknown",
        urljoinBase "/Archives/edgar/data/320193/a.htm"⟩]
    ∧ processIndexLine
        "edgar/data/320193/0000320193-24-000010-index.htm 10-Q 320193 2024-02-01"
        = [] :=
  ⟨(C4_index_line_record
      "x 10-Q edgar/data/ /Archives/edgar/data/320193/a.htm y").1
      "/Archives/edgar/data/320193/a.htm" (by decide) (by decide) (by decide),
    (C4_index_line_record
      "edgar/data/320193/0000320193-24-000010-index.htm 10-Q 320193 2024-02-01").2.1
      (Or.inr (Or.inr (by decide)))⟩

/-- C7 (amended): whatever the markers, a present `extract_section` result is
a contiguous sub-sequence of the document's flattened line sequence (never
reordered, duplicated or fabricated); it is NOT in general a sub-sequence of
the empty-marker extraction, which dispatches to the filtering
`smart_extract`. -/
theorem C7_result_infix_of_document (lines : List String) (s e : String)
    (r : List String) (h : extract_section lines s e = some r) : r <:+: lines := by
  by_cases hc : extractLoop s e lines false = []
  · simp [extract_section, hc] at h
  · simp only [extract_section, if_neg hc, Option.some.injEq] at h
    subst h
    exact extractLoop_contiguous s e lines false

/-- Counterexample for C7: a marked extraction that is not a contiguous
sub-sequence of the empty-marker (keyword-filtered) extraction. -/
theorem C7_counterexample :
    task2_dispatch ["A hello", "B world"] "A" "B" = some ["A hello", "B world"] ∧
    task2_dispatch ["A hello", "B world"] "" "" = some [] ∧
    ¬ ["A hello", "B world"] <:+: ([] : List String) := by decide

/-- Witness for C7. -/
theorem C7_witness : ["a1", "b2"] <:+: ["a1", "b2", "c3"] :=
  C7_result_infix_of_document ["a1", "b2", "c3"] "a" "b" ["a1", "b2"] (by decide)

/-- C8: on a network failure or a non-2xx response (`raise_for_status`), the
`except requests.exceptions.RequestException` branch reports the error and
returns the empty list; no exception escapes `fetch_10q_filings`. -/
theorem C8_fetch_failure_returns_empty (err : String) :
    fetch_10q_filings (.failure err) = [] := rfl

/-- C9 (amended): a failed fetch and a well-formed response in which the
start marker matches nothing produce the SAME caller-visible value, `none`;
the failure kinds are distinguished only in displayed messages, not in the
returned value. -/
theorem C9_error_and_no_data_both_none (err s e : String) (lines : List String)
    (h : ∀ x ∈ lines, pyIn s x = false) :
    extract_section_http (.failure err) s e = none ∧
    extract_section_http (.success lines) s e = none :=
  ⟨rfl, extract_section_eq_none_of_no_start lines s e h⟩

/-- Counterexample for C9: a fetch error and a no-match success return the
identical value `none`. -/
theorem C9_counterexample :
    extract_section_http (.failure "connection error") "Item 7" "Item 8" = none ∧
    extract_section_http (.success ["Hello world"]) "Item 7" "Item 8" = none := by
  decide

/-- Witness for C9. -/
theorem C9_witness :
    extract_section_http (.failure "timeout") "Item 2" "Item 3" = none ∧
    extract_section_http (.success ["General text only"]) "Item 2" "Item 3" = none :=
  C9_error_and_no_data_both_none "timeout" "Item 2" "Item 3" ["General text only"]
    (by decide)

/-! ## src/SEC1.py — numeric normalization (`parse_numeric_value`, lines 313-327)

Python floats are modelled as exact rationals: `float(s)` becomes the exact
decimal value of the literal (binary rounding and shortest-round-trip digit
selection are not modelled), and `str(f)` becomes the decimal rendering of
that exact value (`floatToStr`), in fixed notation when the decimal exponent
lies in [-4, 16) and in scientific notation (`1e+17`, `1.5e-05`) otherwise,
as CPython's float repr does. -/

/-- The character of a decimal digit `d < 10`. -/
def digitChar (d : Nat) : Char := Char.ofNat (d + 48)

/-- The numeric value of a digit character. -/
def digitVal (c : Char) : Nat := c.toNat - 48

/-- The number denoted by a most-significant-first digit string. -/
def digitsVal (l : List Char) : Nat :=
  l.foldl (fun a c => a * 10 + digitVal c) 0

/-- Decimal digits of `n`, most significant first, in front of `acc`
(nothing for `n = 0`); the structural fuel makes concrete runs reduce in
the kernel, and any fuel of at least `n` gives the same result. -/
def natDigitsAuxF : Nat → Nat → List Char → List Char
  | 0, _, acc => acc
  | fuel + 1, n, acc =>
    if n = 0 then acc else natDigitsAuxF fuel (n / 10) (digitChar (n % 10) :: acc)

/-- Decimal digits of `n` in front of `acc` (`n` itself is enough fuel). -/
def natDigitsAux (n : Nat) (acc : List Char) : List Char := natDigitsAuxF n n acc

/-- Decimal digits of `n`, with `0` written "0". -/
def natToDigits10 (n : Nat) : List Char :=
  if n = 0 then ['0'] else natDigitsAux n []

/-- `natDigitsAux n []` left-padded with zeros to width `k`. -/
def padDigits (k n : Nat) : List Char :=
  List.replicate (k - (natDigitsAux n []).length) '0' ++ natDigitsAux n []

/-- Leading-sign split: Python's numeric grammars allow one optional leading
'+' or '-'. Returns (isNegative, the rest). -/
def splitSign (cs : List Char) : Bool × List Char :=
  match cs with
  | [] => (false, [])
  | c :: rest =>
    if c = '-' then (true, rest)
    else if c = '+' then (false, rest) else (false, c :: rest)

/-- The unsigned mantissa grammar of Python's `float()`: digits with at most
one decimal point and at least one digit ("12", "12.", "12.5", ".5"). -/
def parseUnsigned (cs : List Char) : Option ℚ :=
  let intPart := cs.takeWhile fun c => c != '.'
  match cs.dropWhile fun c => c != '.' with
  | [] =>
    if intPart ≠ [] ∧ intPart.all Char.isDigit then some (digitsVal intPart : ℚ)
    else none
  | _ :: frac =>
    if (intPart ≠ [] ∨ frac ≠ []) ∧ intPart.all Char.isDigit ∧ frac.all Char.isDigit
    then some ((digitsVal intPart : ℚ) + (digitsVal frac : ℚ) / (10 : ℚ) ^ frac.length)
    else none

/-- A signed mantissa. -/
def parseSignedMantissa (cs : List Char) : Option ℚ :=
  (parseUnsigned (splitSign cs).2).map fun v => if (splitSign cs).1 then -v else v

/-- A signed digit run, as in `float()`'s exponent and in `int()`. -/
def parseSignedInt (cs : List Char) : Option ℤ :=
  if (splitSign cs).2 ≠ [] ∧ (splitSign cs).2.all Char.isDigit then
    some (if (splitSign cs).1 then -(digitsVal (splitSign cs).2 : ℤ)
      else (digitsVal (splitSign cs).2 : ℤ))
  else none

/-- Python `float(s)` on a character list, idealised to exact rationals:
surrounding whitespace, an optional sign, a decimal mantissa and an optional
e/E exponent ("inf", "nan" and digit-group underscores are not modelled). -/
def pyFloatChars (cs0 : List Char) : Option ℚ :=
  let cs := (pyStrip cs0).map Char.toLower
  match cs.dropWhile fun c => c != 'e' with
  | [] => parseSignedMantissa (cs.takeWhile fun c => c != 'e')
  | _ :: ex =>
    match parseSignedMantissa (cs.takeWhile fun c => c != 'e'), parseSignedInt ex with
    | some v, some k => some (v * (10 : ℚ) ^ k)
    | _, _ => none

/-- Python `int(s)` (for the XBRL scale attribute): whitespace-stripped
optional sign and digits. -/
def pyIntStr (s : String) : Option ℤ := parseSignedInt (pyStrip s.data)

/-- `parse_numeric_value` (src/SEC1.py lines 313-327): the falsy check, then
`strip()`, `replace('(', '-')`, `replace(')', '')`, the `[^0-9.-]` cleanup,
and `float(...)` with `None` on `ValueError`. -/
def parse_numeric_value (text : String) : Option ℚ :=
  if text.data = [] then none
  else
    let t := ((pyStrip text.data).map fun c => if c = '(' then '-' else c).filter
      fun c => c != ')'
    let cleaned := t.filter fun c => c.isDigit || c == '.' || c == '-'
    pyFloatChars cleaned

/-- Multiplicity of `p` in `n`, by structural fuel (any fuel of at least
`n` gives the same count). -/
def countFactorsF (p : Nat) : Nat → Nat → Nat
  | 0, _ => 0
  | fuel + 1, n =>
    if 2 ≤ p ∧ 0 < n ∧ n % p = 0 then countFactorsF p fuel (n / p) + 1 else 0

/-- Multiplicity of `p` in `n` (`n` itself is enough fuel). -/
def countFactors (p n : Nat) : Nat := countFactorsF p n n

/-- The width of the decimal expansion of `|q|`: the larger of the
multiplicities of 2 and 5 in the reduced denominator (for a float value,
the denominator has no other prime factor). -/
def floatExp (q : ℚ) : Nat := max (countFactors 2 q.den) (countFactors 5 q.den)

/-- `|q|` scaled to an integer by `10 ^ floatExp q`. -/
def floatMantissa (q : ℚ) : Nat := q.num.natAbs * 10 ^ floatExp q / q.den

/-- The number of decimal digits of `n` (0 for `n = 0`). -/
def digitCount (n : Nat) : Nat := (natDigitsAux n []).length

/-- The decimal exponent of `|q|`: the power of ten of its leading digit.
CPython prints fixed notation exactly when this lies in [-4, 16). -/
def decExp10 (q : ℚ) : Int :=
  (digitCount (floatMantissa q) : ℤ) - 1 - (floatExp q : ℤ)

/-- Python `str(f)` in fixed notation: sign, integer digits, a point, and
the fractional digits (at least one, as Python always prints). -/
def floatFixedChars (q : ℚ) : List Char :=
  (if q.num < 0 then ['-'] else [])
    ++ natToDigits10 (floatMantissa q / 10 ^ floatExp q)
    ++ '.' :: (if floatExp q = 0 then ['0']
      else padDigits (floatExp q) (floatMantissa q % 10 ^ floatExp q))

/-- Digits with their trailing zeros removed (the significant digits of the
scientific-notation mantissa). -/
def stripTrailingZeros (ds : List Char) : List Char :=
  (ds.reverse.dropWhile fun c => c == '0').reverse

/-- The exponent suffix of Python's scientific notation: a mandatory sign
and at least two digits ("+17", "-05"). -/
def expDigits (e : Int) : List Char :=
  (if e < 0 then '-' else '+') ::
    (if (natToDigits10 e.natAbs).length < 2 then '0' :: natToDigits10 e.natAbs
      else natToDigits10 e.natAbs)

/-- Python `str(f)` in scientific notation: the significant digits with a
point after the first (omitted when only one remains), then `e` and the
two-digit signed exponent — `1e+17`, `2.5e+16`, `1e-05`. -/
def floatSciChars (q : ℚ) : List Char :=
  (if q.num < 0 then ['-'] else [])
    ++ (match stripTrailingZeros (natDigitsAux (floatMantissa q) []) with
        | [] => ['0']
        | d :: rest => d :: (if rest = [] then [] else '.' :: rest))
    ++ 'e' :: expDigits (decExp10 q)

/-- Python `str(f)` for a float value: fixed notation when the decimal
exponent lies in [-4, 16), scientific notation otherwise, as CPython's
float repr selects. -/
def floatToStrChars (q : ℚ) : List Char :=
  if -4 ≤ decExp10 q ∧ decExp10 q < 16 then floatFixedChars q else floatSciChars q

/-- Python `str(f)` as a `String`. -/
def floatToStr (q : ℚ) : String := String.mk (floatToStrChars q)

attribute [local semireducible] Rat.add Rat.mul Rat.inv Rat.sub Rat.ofScientific

/-! ## Digit-string lemmas -/

theorem digitChar_class : ∀ d : Nat, d < 10 →
    (digitChar d).isDigit = true ∧ digitVal (digitChar d) = d ∧
    (digitChar d).isWhitespace = false ∧ digitChar d ≠ '-' ∧ digitChar d ≠ '+' ∧
    digitChar d ≠ '.' ∧ digitChar d ≠ '(' ∧ digitChar d ≠ ')' ∧
    Char.toLower (digitChar d) = digitChar d ∧ digitChar d ≠ 'e' := by decide

theorem natDigitsAuxF_congr : ∀ (n f1 f2 : Nat) (acc : List Char),
    n ≤ f1 → n ≤ f2 → natDigitsAuxF f1 n acc = natDigitsAuxF f2 n acc := by
  intro n
  induction n using Nat.strong_induction_on with
  | _ n ih =>
    intro f1 f2 acc h1 h2
    by_cases h : n = 0
    · subst h
      cases f1 <;> cases f2 <;> simp [natDigitsAuxF]
    · obtain ⟨g1, rfl⟩ : ∃ g, f1 = g + 1 := ⟨f1 - 1, by omega⟩
      obtain ⟨g2, rfl⟩ : ∃ g, f2 = g + 1 := ⟨f2 - 1, by omega⟩
      simp only [natDigitsAuxF, if_neg h]
      have hlt : n / 10 < n := Nat.div_lt_self (Nat.pos_of_ne_zero h) (by norm_num)
      exact ih (n / 10) hlt g1 g2 _ (by omega) (by omega)

theorem natDigitsAux_eq {n : Nat} (h : n ≠ 0) (acc : List Char) :
    natDigitsAux n acc = natDigitsAux (n / 10) (digitChar (n % 10) :: acc) := by
  obtain ⟨m, rfl⟩ : ∃ m, n = m + 1 := ⟨n - 1, by omega⟩
  have hstep : natDigitsAuxF (m + 1) (m + 1) acc
      = natDigitsAuxF m ((m + 1) / 10) (digitChar ((m + 1) % 10) :: acc) := by
    simp [natDigitsAuxF]
  show natDigitsAuxF (m + 1) (m + 1) acc = _
  rw [hstep]
  apply natDigitsAuxF_congr
  · have := Nat.div_lt_self (show 0 < m + 1 by omega) (by norm_num : 1 < 10)
    omega
  · exact le_refl _

theorem natDigitsAux_append (n : Nat) :
    ∀ acc : List Char, natDigitsAux n acc = natDigitsAux n [] ++ acc := by
  induction n using Nat.strong_induction_on with
  | _ n ih =>
    intro acc
    by_cases h : n = 0
    · subst h
      rfl
    · rw [natDigitsAux_eq h acc]
      conv_rhs => rw [natDigitsAux_eq h ([] : List Char)]
      have hlt : n / 10 < n := Nat.div_lt_self (Nat.pos_of_ne_zero h) (by norm_num)
      rw [ih (n / 10) hlt (digitChar (n % 10) :: acc),
        ih (n / 10) hlt [digitChar (n % 10)]]
      simp

theorem digitsVal_from (f : Nat → Char → Nat)
    (hf : ∀ a c, f a c = a * 10 + digitVal c) :
    ∀ (l : List Char) (a : Nat),
      l.foldl f a = a * 10 ^ l.length + l.foldl f 0
  | [], a => by simp
  | c :: l, a => by
    simp only [List.foldl_cons, List.length_cons]
    rw [digitsVal_from f hf l (f a c), digitsVal_from f hf l (f 0 c), hf, hf]
    ring

theorem digitsVal_append (l₁ l₂ : List Char) :
    digitsVal (l₁ ++ l₂) = digitsVal l₁ * 10 ^ l₂.length + digitsVal l₂ := by
  unfold digitsVal
  rw [List.foldl_append]
  exact digitsVal_from _ (fun a c => rfl) l₂ (List.foldl _ 0 l₁)

theorem digitsVal_natDigitsAux (n : Nat) : digitsVal (natDigitsAux n []) = n := by
  induction n using Nat.strong_induction_on with
  | _ n ih =>
    by_cases h : n = 0
    · subst h
      rfl
    · have hlt : n / 10 < n := Nat.div_lt_self (Nat.pos_of_ne_zero h) (by norm_num)
      rw [natDigitsAux_eq h, natDigitsAux_append, digitsVal_append, ih (n / 10) hlt]
      have hd := (digitChar_class (n % 10) (Nat.mod_lt n (by norm_num))).2.1
      simp only [List.length_singleton, pow_one]
      have : digitsVal [digitChar (n % 10)] = n % 10 := by
        simp [digitsVal, hd]
      rw [this]
      omega

theorem natDigitsAux_length : ∀ (j n : Nat), n < 10 ^ j →
    (natDigitsAux n []).length ≤ j
  | 0, n, h => by
    have : n = 0 := by omega
    subst this
    exact Nat.le_refl 0
  | j + 1, n, h => by
    by_cases h0 : n = 0
    · subst h0
      exact Nat.zero_le _
    · rw [natDigitsAux_eq h0, natDigitsAux_append, List.length_append]
      have hdiv : n / 10 < 10 ^ j := by
        have : n < 10 * 10 ^ j := by rw [← pow_succ']; exact h
        exact Nat.div_lt_of_lt_mul this
      have := natDigitsAux_length j (n / 10) hdiv
      simp only [List.length_singleton]
      omega

theorem natDigitsAux_mem (n : Nat) :
    ∀ (acc : List Char) (c : Char), c ∈ natDigitsAux n acc →
      c ∈ acc ∨ ∃ d, d < 10 ∧ c = digitChar d := by
  induction n using Nat.strong_induction_on with
  | _ n ih =>
    intro acc c hc
    by_cases h : n = 0
    · subst h
      exact Or.inl hc
    · rw [natDigitsAux_eq h] at hc
      have hlt : n / 10 < n := Nat.div_lt_self (Nat.pos_of_ne_zero h) (by norm_num)
      rcases ih (n / 10) hlt _ c hc with hmem | hd
      · rcases List.mem_cons.mp hmem with rfl | hacc
        · exact Or.inr ⟨n % 10, Nat.mod_lt n (by norm_num), rfl⟩
        · exact Or.inl hacc
      · exact Or.inr hd

theorem natDigitsAux_ne_nil {n : Nat} (h : n ≠ 0) : natDigitsAux n [] ≠ [] := by
  intro hnil
  exact h (by rw [← digitsVal_natDigitsAux n, hnil]; rfl)

theorem natToDigits10_val (n : Nat) : digitsVal (natToDigits10 n) = n := by
  unfold natToDigits10
  by_cases h : n = 0
  · subst h
    decide
  · rw [if_neg h]
    exact digitsVal_natDigitsAux n

theorem natToDigits10_ne_nil (n : Nat) : natToDigits10 n ≠ [] := by
  unfold natToDigits10
  by_cases h : n = 0
  · subst h
    simp
  · rw [if_neg h]
    exact natDigitsAux_ne_nil h

theorem natToDigits10_mem {n : Nat} {c : Char} (hc : c ∈ natToDigits10 n) :
    ∃ d, d < 10 ∧ c = digitChar d := by
  unfold natToDigits10 at hc
  by_cases h : n = 0
  · rw [if_pos h] at hc
    rcases List.mem_singleton.mp hc with rfl
    exact ⟨0, by norm_num, by decide⟩
  · rw [if_neg h] at hc
    rcases natDigitsAux_mem n [] c hc with habs | hd
    · cases habs
    · exact hd

theorem digitsVal_replicate_zero : ∀ z : Nat, digitsVal (List.replicate z '0') = 0
  | 0 => rfl
  | z + 1 => by
    have : digitsVal (List.replicate (z + 1) '0') = digitsVal (List.replicate z '0') := by
      simp only [List.replicate_succ, digitsVal, List.foldl_cons]
      norm_num [digitVal]
      rfl
    rw [this, digitsVal_replicate_zero z]

theorem padDigits_val (k n : Nat) : digitsVal (padDigits k n) = digitsVal (natDigitsAux n []) := by
  unfold padDigits
  rw [digitsVal_append, digitsVal_replicate_zero]
  ring

theorem padDigits_length {k n : Nat} (h : n < 10 ^ k) : (padDigits k n).length = k := by
  unfold padDigits
  have hlen := natDigitsAux_length k n h
  rw [List.length_append, List.length_replicate]
  omega

theorem padDigits_mem {k n : Nat} {c : Char} (hc : c ∈ padDigits k n) :
    ∃ d, d < 10 ∧ c = digitChar d := by
  unfold padDigits at hc
  rcases List.mem_append.mp hc with h1 | h2
  · rcases List.eq_of_mem_replicate h1 with rfl
    exact ⟨0, by norm_num, by decide⟩
  · rcases natDigitsAux_mem n [] c h2 with habs | hd
    · cases habs
    · exact hd

/-! ## List scanning helpers for the parser proofs -/

theorem dropWhile_all_neg {α : Type} (p : α → Bool) :
    ∀ l : List α, (∀ c ∈ l, p c = false) → l.dropWhile p = l
  | [], _ => rfl
  | c :: l, h => by
    rw [List.dropWhile_cons, h c (List.mem_cons_self c l)]
    simp

theorem takeWhile_all_pos {α : Type} (p : α → Bool) :
    ∀ l : List α, (∀ c ∈ l, p c = true) → l.takeWhile p = l ∧ l.dropWhile p = []
  | [], _ => ⟨rfl, rfl⟩
  | c :: l, h => by
    have hc := h c (List.mem_cons_self c l)
    have ih := takeWhile_all_pos p l (fun x hx => h x (List.mem_cons_of_mem c hx))
    rw [List.dropWhile_cons, List.takeWhile_cons, hc]
    simp [ih.1, ih.2]

theorem map_id_of {α : Type} (f : α → α) :
    ∀ l : List α, (∀ c ∈ l, f c = c) → l.map f = l
  | [], _ => rfl
  | c :: l, h => by
    rw [List.map_cons, h c (List.mem_cons_self c l),
      map_id_of f l (fun x hx => h x (List.mem_cons_of_mem c hx))]

theorem pyStrip_eq_self {l : List Char} (h : ∀ c ∈ l, c.isWhitespace = false) :
    pyStrip l = l := by
  unfold pyStrip
  rw [dropWhile_all_neg _ l h, dropWhile_all_neg _ l.reverse
    (fun c hc => h c (List.mem_reverse.mp hc)), List.reverse_reverse]

/-! ## Character classes of printed floats -/

theorem floatFixedChars_mem (q : ℚ) :
    ∀ c ∈ floatFixedChars q, c = '-' ∨ c = '.' ∨ ∃ d, d < 10 ∧ c = digitChar d := by
  intro c hc
  unfold floatFixedChars at hc
  rcases List.mem_append.mp hc with h12 | h3
  · rcases List.mem_append.mp h12 with h1 | h2
    · by_cases hneg : q.num < 0
      · rw [if_pos hneg] at h1
        rcases List.mem_singleton.mp h1 with rfl
        exact Or.inl rfl
      · rw [if_neg hneg] at h1
        cases h1
    · exact Or.inr (Or.inr (natToDigits10_mem h2))
  · rcases List.mem_cons.mp h3 with rfl | h4
    · exact Or.inr (Or.inl rfl)
    · by_cases hk : floatExp q = 0
      · rw [if_pos hk] at h4
        rcases List.mem_singleton.mp h4 with rfl
        exact Or.inr (Or.inr ⟨0, by norm_num, by decide⟩)
      · rw [if_neg hk] at h4
        exact Or.inr (Or.inr (padDigits_mem h4))

theorem digitChar_class2 : ∀ d : Nat, d < 10 →
    ((digitChar d).isDigit || digitChar d == '.' || digitChar d == '-') = true ∧
    (digitChar d).isWhitespace = false ∧
    (if digitChar d = '(' then '-' else digitChar d) = digitChar d ∧
    (digitChar d != ')') = true ∧ Char.toLower (digitChar d) = digitChar d ∧
    (digitChar d != 'e') = true := by decide

theorem floatFixedChars_class (q : ℚ) :
    ∀ c ∈ floatFixedChars q,
      (c.isDigit || c == '.' || c == '-') = true ∧ c.isWhitespace = false ∧
      (if c = '(' then '-' else c) = c ∧ (c != ')') = true ∧
      Char.toLower c = c ∧ (c != 'e') = true := by
  intro c hc
  rcases floatFixedChars_mem q c hc with rfl | rfl | ⟨d, hd, rfl⟩
  · exact ⟨by decide, by decide, by decide, by decide, by decide, by decide⟩
  · exact ⟨by decide, by decide, by decide, by decide, by decide, by decide⟩
  · exact digitChar_class2 d hd

theorem floatFixedChars_ne_nil (q : ℚ) : floatFixedChars q ≠ [] := by
  unfold floatFixedChars
  intro h
  rcases List.append_eq_nil.mp h with ⟨-, h3⟩
  cases h3

/-- Reduction of `parse_numeric_value` on a string that is already clean:
no whitespace, no parentheses, only digit, point and minus characters, and
no exponent letter — the cleanup passes are the identity and `float()` sees
the string itself. -/
theorem parse_numeric_value_clean (cs : List Char) (h0 : cs ≠ [])
    (hcls : ∀ c ∈ cs,
      (c.isDigit || c == '.' || c == '-') = true ∧ c.isWhitespace = false ∧
      (if c = '(' then '-' else c) = c ∧ (c != ')') = true ∧
      Char.toLower c = c ∧ (c != 'e') = true) :
    parse_numeric_value (String.mk cs) = parseSignedMantissa cs := by
  have h1 : pyStrip cs = cs := pyStrip_eq_self (fun c hc => (hcls c hc).2.1)
  have h2 : cs.map (fun c => if c = '(' then '-' else c) = cs :=
    map_id_of _ cs (fun c hc => (hcls c hc).2.2.1)
  have h3 : cs.filter (fun c => c != ')') = cs :=
    List.filter_eq_self.mpr (fun c hc => (hcls c hc).2.2.2.1)
  have h4 : cs.filter (fun c => c.isDigit || c == '.' || c == '-') = cs :=
    List.filter_eq_self.mpr (fun c hc => (hcls c hc).1)
  have h5 : cs.map Char.toLower = cs :=
    map_id_of _ cs (fun c hc => (hcls c hc).2.2.2.2.1)
  have h67 := takeWhile_all_pos (fun c => c != 'e') cs
    (fun c hc => (hcls c hc).2.2.2.2.2)
  simp only [parse_numeric_value, pyFloatChars, if_neg h0, h1, h2, h3, h4, h5,
    h67.1, h67.2]

/-- `parseUnsigned` on a well-formed digit-point-digit string. -/
theorem parseUnsigned_concat (intD frac : List Char) (hi : intD ≠ [])
    (hdi : ∀ c ∈ intD, c.isDigit = true) (hdf : ∀ c ∈ frac, c.isDigit = true)
    (hdotI : ∀ c ∈ intD, (c != '.') = true) :
    parseUnsigned (intD ++ '.' :: frac) =
      some ((digitsVal intD : ℚ) + (digitsVal frac : ℚ) / (10 : ℚ) ^ frac.length) := by
  have ht : (intD ++ '.' :: frac).takeWhile (fun c => c != '.') = intD := by
    rw [List.takeWhile_append_of_pos hdotI]
    simp [List.takeWhile_cons]
  have hd : (intD ++ '.' :: frac).dropWhile (fun c => c != '.') = '.' :: frac := by
    rw [List.dropWhile_append_of_pos hdotI]
    simp [List.dropWhile_cons]
  simp only [parseUnsigned, ht, hd]
  rw [if_pos]
  exact ⟨Or.inl hi, List.all_eq_true.mpr hdi, List.all_eq_true.mpr hdf⟩

/-! ## The denominator of a parsed value divides a power of ten -/

theorem countFactorsF_congr (p : Nat) : ∀ (n f1 f2 : Nat),
    n ≤ f1 → n ≤ f2 → countFactorsF p f1 n = countFactorsF p f2 n := by
  intro n
  induction n using Nat.strong_induction_on with
  | _ n ih =>
    intro f1 f2 h1 h2
    by_cases hc : 2 ≤ p ∧ 0 < n ∧ n % p = 0
    · obtain ⟨g1, rfl⟩ : ∃ g, f1 = g + 1 := ⟨f1 - 1, by omega⟩
      obtain ⟨g2, rfl⟩ : ∃ g, f2 = g + 1 := ⟨f2 - 1, by omega⟩
      simp only [countFactorsF, if_pos hc]
      have hlt : n / p < n := Nat.div_lt_self hc.2.1 (by omega)
      rw [ih (n / p) hlt g1 g2 (by omega) (by omega)]
    · have hz : ∀ g, countFactorsF p g n = 0 := by
        intro g
        cases g with
        | zero => rfl
        | succ g => simp only [countFactorsF, if_neg hc]
      rw [hz f1, hz f2]

theorem countFactors_step {p n : Nat} (hp : 2 ≤ p) (hn : 0 < n) (hd : p ∣ n) :
    countFactors p n = countFactors p (n / p) + 1 := by
  obtain ⟨m, rfl⟩ : ∃ m, n = m + 1 := ⟨n - 1, by omega⟩
  have hcond : 2 ≤ p ∧ 0 < m + 1 ∧ (m + 1) % p = 0 :=
    ⟨hp, hn, Nat.mod_eq_zero_of_dvd hd⟩
  show countFactorsF p (m + 1) (m + 1)
    = countFactorsF p ((m + 1) / p) ((m + 1) / p) + 1
  simp only [countFactorsF, if_pos hcond]
  rw [countFactorsF_congr p ((m + 1) / p) m ((m + 1) / p)
    (by
      have : (m + 1) / p < m + 1 := Nat.div_lt_self hn (by omega)
      omega)
    (le_refl _)]

theorem countFactors_eq_zero {p n : Nat} (h : ¬ p ∣ n) : countFactors p n = 0 := by
  have hn : n ≠ 0 := by
    rintro rfl
    exact h (dvd_zero p)
  obtain ⟨m, rfl⟩ : ∃ m, n = m + 1 := ⟨n - 1, by omega⟩
  show countFactorsF p (m + 1) (m + 1) = 0
  have hcond : ¬ (2 ≤ p ∧ 0 < m + 1 ∧ (m + 1) % p = 0) := by
    rintro ⟨-, -, hmod⟩
    exact h (Nat.dvd_of_mod_eq_zero hmod)
  simp only [countFactorsF, if_neg hcond]

theorem countFactors_mul {p c : Nat} (hp : p.Prime) (hc : ¬ p ∣ c) :
    ∀ n : Nat, countFactors p (c * n) = countFactors p n := by
  intro n
  induction n using Nat.strong_induction_on with
  | _ n ih =>
    by_cases hd : p ∣ n
    · by_cases hn0 : n = 0
      · subst hn0
        rw [Nat.mul_zero]
      · have hn : 0 < n := Nat.pos_of_ne_zero hn0
        have hc0 : 0 < c := by
          rcases Nat.eq_zero_or_pos c with rfl | h
          · exact absurd (dvd_zero p) hc
          · exact h
        have hp2 : 2 ≤ p := hp.two_le
        have hdc : p ∣ c * n := hd.mul_left c
        have hpos : 0 < c * n := Nat.mul_pos hc0 hn
        rw [countFactors_step hp2 hpos hdc, countFactors_step hp2 hn hd,
          Nat.mul_div_assoc c hd]
        have hlt : n / p < n := Nat.div_lt_self hn (by omega)
        rw [ih (n / p) hlt]
    · have hdc : ¬ p ∣ c * n := by
        intro hdvd
        rcases (Nat.Prime.dvd_mul hp).mp hdvd with h | h
        · exact hc h
        · exact hd h
      rw [countFactors_eq_zero hdc, countFactors_eq_zero hd]

theorem dvd_two_five_eq : ∀ d : Nat, 0 < d → ∀ i j : Nat, d ∣ 2 ^ i * 5 ^ j →
    d = 2 ^ countFactors 2 d * 5 ^ countFactors 5 d := by
  intro d
  induction d using Nat.strong_induction_on with
  | _ d ih =>
    intro hd i j hdvd
    by_cases h2 : (2 : Nat) ∣ d
    · obtain ⟨e, rfl⟩ := h2
      have he : 0 < e := by omega
      obtain ⟨i1, rfl⟩ : ∃ i1, i = i1 + 1 := by
        cases i with
        | zero =>
          exfalso
          have h25 : (2 : Nat) ∣ 5 ^ j := by
            have h2d : (2 : Nat) ∣ 2 * e := ⟨e, rfl⟩
            have := h2d.trans hdvd
            simpa using this
          exact absurd (Nat.Prime.dvd_of_dvd_pow Nat.prime_two h25) (by decide)
        | succ i1 => exact ⟨i1, rfl⟩
      have hdvd1 : e ∣ 2 ^ i1 * 5 ^ j := by
        have hsh : 2 ^ (i1 + 1) * 5 ^ j = 2 * (2 ^ i1 * 5 ^ j) := by ring
        rw [hsh] at hdvd
        exact (Nat.mul_dvd_mul_iff_left (by norm_num : 0 < 2)).mp hdvd
      have hih := ih e (by omega) he i1 j hdvd1
      have hc2 : countFactors 2 (2 * e) = countFactors 2 e + 1 := by
        rw [countFactors_step (by norm_num) (by omega) ⟨e, rfl⟩,
          Nat.mul_div_cancel_left e (by norm_num)]
      have hc5 : countFactors 5 (2 * e) = countFactors 5 e :=
        countFactors_mul (by norm_num) (by decide) e
      rw [hc2, hc5]
      conv_lhs => rw [hih]
      ring
    · by_cases h5 : (5 : Nat) ∣ d
      · obtain ⟨e, rfl⟩ := h5
        have he : 0 < e := by omega
        obtain ⟨j1, rfl⟩ : ∃ j1, j = j1 + 1 := by
          cases j with
          | zero =>
            exfalso
            have h52 : (5 : Nat) ∣ 2 ^ i := by
              have h5d : (5 : Nat) ∣ 5 * e := ⟨e, rfl⟩
              have := h5d.trans hdvd
              simpa using this
            exact absurd (Nat.Prime.dvd_of_dvd_pow (by norm_num) h52) (by decide)
          | succ j1 => exact ⟨j1, rfl⟩
        have hdvd1 : e ∣ 2 ^ i * 5 ^ j1 := by
          have hsh : 2 ^ i * 5 ^ (j1 + 1) = 5 * (2 ^ i * 5 ^ j1) := by ring
          rw [hsh] at hdvd
          exact (Nat.mul_dvd_mul_iff_left (by norm_num : 0 < 5)).mp hdvd
        have hih := ih e (by omega) he i j1 hdvd1
        have hc5 : countFactors 5 (5 * e) = countFactors 5 e + 1 := by
          rw [countFactors_step (by norm_num) (by omega) ⟨e, rfl⟩,
            Nat.mul_div_cancel_left e (by norm_num)]
        have hc2 : countFactors 2 (5 * e) = countFactors 2 e :=
          countFactors_mul Nat.prime_two (by decide) e
        rw [hc2, hc5]
        conv_lhs => rw [hih]
        ring
      · have hcop2 : Nat.Coprime d 2 :=
          ((Nat.Prime.coprime_iff_not_dvd Nat.prime_two).mpr h2).symm
        have hcop5 : Nat.Coprime d 5 :=
          ((Nat.Prime.coprime_iff_not_dvd (by norm_num)).mpr h5).symm
        have hcop : Nat.Coprime d (2 ^ i * 5 ^ j) :=
          Nat.Coprime.mul_right (hcop2.pow_right i) (hcop5.pow_right j)
        have hone : d = 1 := Nat.Coprime.eq_one_of_dvd hcop hdvd
        subst hone
        decide

theorem den_dvd_pow_floatExp (q : ℚ) {e : ℕ} (h : q.den ∣ 10 ^ e) :
    q.den ∣ 10 ^ floatExp q := by
  have h2 : q.den ∣ 2 ^ e * 5 ^ e := by
    rwa [show (10 : ℕ) = 2 * 5 by norm_num, mul_pow] at h
  have heq := dvd_two_five_eq q.den (Nat.pos_of_ne_zero q.den_nz) e e h2
  unfold floatExp
  conv_lhs => rw [heq]
  rw [show (10 : ℕ) = 2 * 5 by norm_num, mul_pow]
  exact mul_dvd_mul (pow_dvd_pow 2 (le_max_left _ _)) (pow_dvd_pow 5 (le_max_right _ _))

theorem parseUnsigned_range {cs : List Char} {v : ℚ} (h : parseUnsigned cs = some v) :
    ∃ (n e : ℕ), v = (n : ℚ) / 10 ^ e := by
  rcases hdrop : cs.dropWhile (fun c => c != '.') with _ | ⟨c, frac⟩ <;>
    simp only [parseUnsigned, hdrop] at h
  · split at h
    · refine ⟨digitsVal (cs.takeWhile fun c => c != '.'), 0, ?_⟩
      rw [← Option.some.inj h]
      simp
    · cases h
  · split at h
    · refine ⟨digitsVal (cs.takeWhile fun c => c != '.') * 10 ^ frac.length
        + digitsVal frac, frac.length, ?_⟩
      rw [← Option.some.inj h]
      have hpow : (0 : ℚ) < 10 ^ frac.length := by positivity
      field_simp
    · cases h

theorem parseSignedMantissa_range {cs : List Char} {v : ℚ}
    (h : parseSignedMantissa cs = some v) : ∃ (z : ℤ) (e : ℕ), v = (z : ℚ) / 10 ^ e := by
  unfold parseSignedMantissa at h
  rcases Option.map_eq_some'.mp h with ⟨u, hu, hf⟩
  obtain ⟨n, e, rfl⟩ := parseUnsigned_range hu
  by_cases hs : (splitSign cs).1
  · refine ⟨-(n : ℤ), e, ?_⟩
    rw [← hf, if_pos hs]
    push_cast
    ring
  · refine ⟨(n : ℤ), e, ?_⟩
    rw [← hf, if_neg hs]
    push_cast
    ring

theorem pyFloatChars_range {cs : List Char} {q : ℚ} (h : pyFloatChars cs = some q) :
    ∃ (z : ℤ) (e : ℕ), q = (z : ℚ) / 10 ^ e := by
  rcases hdrop : (List.map Char.toLower (pyStrip cs)).dropWhile (fun c => c != 'e')
      with _ | ⟨c, ex⟩ <;> simp only [pyFloatChars, hdrop] at h
  · exact parseSignedMantissa_range h
  · rcases hm : parseSignedMantissa ((List.map Char.toLower (pyStrip cs)).takeWhile
        (fun c => c != 'e')) with _ | v <;> rw [hm] at h
    · cases h
    · rcases hk : parseSignedInt ex with _ | k <;> rw [hk] at h
      · cases h
      · obtain ⟨z, e, rfl⟩ := parseSignedMantissa_range hm
        replace h := Option.some.inj h
        rcases k with t | t
        · refine ⟨z * 10 ^ t, e, ?_⟩
          rw [← h, Int.ofNat_eq_coe, zpow_natCast]
          push_cast
          ring
        · refine ⟨z, e + (t + 1), ?_⟩
          rw [← h, zpow_negSucc]
          have h1 : ((10 : ℚ) ^ e) ≠ 0 := by positivity
          have h2 : ((10 : ℚ) ^ (t + 1)) ≠ 0 := by positivity
          field_simp
          exact Or.inl (pow_add 10 e (t + 1))

theorem parse_numeric_value_range {x : String} {q : ℚ}
    (h : parse_numeric_value x = some q) :
    ∃ (z : ℤ) (e : ℕ), q = (z : ℚ) / 10 ^ e := by
  by_cases hnil : x.data = []
  · unfold parse_numeric_value at h
    rw [if_pos hnil] at h
    cases h
  · unfold parse_numeric_value at h
    rw [if_neg hnil] at h
    exact pyFloatChars_range h

theorem den_dvd_of_div_pow {q : ℚ} {z : ℤ} {e : ℕ} (h : q = (z : ℚ) / 10 ^ e) :
    q.den ∣ 10 ^ e := by
  have h10 : ((10 ^ e : ℤ) : ℚ) = (10 : ℚ) ^ e := by push_cast; ring
  have hq : q = Rat.divInt z (10 ^ e : ℤ) := by rw [Rat.divInt_eq_div, h10, h]
  have hdvd := Rat.den_dvd z (10 ^ e : ℤ)
  rw [← hq] at hdvd
  have hcast : ((10 ^ e : ℕ) : ℤ) = 10 ^ e := by push_cast; ring
  exact Int.ofNat_dvd.mp (hcast ▸ hdvd)

/-! ## Printing a float value and parsing it back -/

theorem natToDigits10_digit {n : Nat} : ∀ c ∈ natToDigits10 n, c.isDigit = true := by
  intro c hc
  obtain ⟨d, hd, rfl⟩ := natToDigits10_mem hc
  exact (digitChar_class d hd).1

theorem natToDigits10_ne_dot {n : Nat} : ∀ c ∈ natToDigits10 n, (c != '.') = true := by
  intro c hc
  obtain ⟨d, hd, rfl⟩ := natToDigits10_mem hc
  have := (digitChar_class d hd).2.2.2.2.2.1
  simp [bne_iff_ne, this]

theorem fracPart_digit (q : ℚ) :
    ∀ c ∈ (if floatExp q = 0 then ['0']
      else padDigits (floatExp q) (floatMantissa q % 10 ^ floatExp q)),
      c.isDigit = true := by
  intro c hc
  by_cases hk : floatExp q = 0
  · rw [if_pos hk] at hc
    rcases List.mem_singleton.mp hc with rfl
    decide
  · rw [if_neg hk] at hc
    obtain ⟨d, hd, rfl⟩ := padDigits_mem hc
    exact (digitChar_class d hd).1

/-- The decimal digits `floatFixedChars` prints denote `|q|`. -/
theorem floatToStr_value (q : ℚ) (hden : q.den ∣ 10 ^ floatExp q) :
    (digitsVal (natToDigits10 (floatMantissa q / 10 ^ floatExp q)) : ℚ) +
      (digitsVal (if floatExp q = 0 then ['0']
        else padDigits (floatExp q) (floatMantissa q % 10 ^ floatExp q)) : ℚ) /
        (10 : ℚ) ^ (if floatExp q = 0 then ['0']
          else padDigits (floatExp q) (floatMantissa q % 10 ^ floatExp q)).length =
    (q.num.natAbs : ℚ) / (q.den : ℚ) := by
  have hm : floatMantissa q * q.den = q.num.natAbs * 10 ^ floatExp q := by
    unfold floatMantissa
    exact Nat.div_mul_cancel (Dvd.dvd.mul_left hden _)
  rw [natToDigits10_val]
  by_cases hk : floatExp q = 0
  · rw [if_pos hk]
    rw [hk] at hm hden ⊢
    have hden1 : q.den = 1 := Nat.dvd_one.mp (by simpa using hden)
    rw [hden1] at hm ⊢
    have hmm : floatMantissa q = q.num.natAbs := by simpa using hm
    rw [hmm]
    have h0 : digitsVal ['0'] = 0 := by decide
    rw [h0]
    norm_num
  · rw [if_neg hk]
    have hpowpos : 0 < 10 ^ floatExp q := by positivity
    have hFlt : floatMantissa q % 10 ^ floatExp q < 10 ^ floatExp q :=
      Nat.mod_lt _ hpowpos
    rw [padDigits_val, digitsVal_natDigitsAux, padDigits_length hFlt]
    have hdm := Nat.div_add_mod (floatMantissa q) (10 ^ floatExp q)
    have hden0 : (q.den : ℚ) ≠ 0 := by exact_mod_cast q.den_nz
    have hpow0 : ((10 : ℚ) ^ floatExp q) ≠ 0 := by positivity
    have hdmQ : ((floatMantissa q / 10 ^ floatExp q : ℕ) : ℚ) * (10 : ℚ) ^ floatExp q
        + ((floatMantissa q % 10 ^ floatExp q : ℕ) : ℚ) = (floatMantissa q : ℚ) := by
      exact_mod_cast (by linarith [hdm] :
        (floatMantissa q / 10 ^ floatExp q) * 10 ^ floatExp q
          + floatMantissa q % 10 ^ floatExp q = floatMantissa q)
    have hmQ : (floatMantissa q : ℚ) * (q.den : ℚ)
        = (q.num.natAbs : ℚ) * (10 : ℚ) ^ floatExp q := by exact_mod_cast hm
    have step1 : ((floatMantissa q / 10 ^ floatExp q : ℕ) : ℚ)
        + ((floatMantissa q % 10 ^ floatExp q : ℕ) : ℚ) / (10 : ℚ) ^ floatExp q
        = (floatMantissa q : ℚ) / (10 : ℚ) ^ floatExp q := by
      rw [eq_div_iff hpow0, add_mul, div_mul_cancel₀ _ hpow0]
      linarith [hdmQ]
    rw [step1, div_eq_div_iff hpow0 hden0]
    linarith [hmQ]

/-- Parsing the printed float recovers the value exactly. -/
theorem parseSignedMantissa_floatFixedChars (q : ℚ) (hden : q.den ∣ 10 ^ floatExp q) :
    parseSignedMantissa (floatFixedChars q) = some q := by
  have hPU := parseUnsigned_concat
    (natToDigits10 (floatMantissa q / 10 ^ floatExp q))
    (if floatExp q = 0 then ['0']
      else padDigits (floatExp q) (floatMantissa q % 10 ^ floatExp q))
    (natToDigits10_ne_nil _) natToDigits10_digit (fracPart_digit q) natToDigits10_ne_dot
  by_cases hneg : q.num < 0
  · have hchars : floatFixedChars q =
        '-' :: (natToDigits10 (floatMantissa q / 10 ^ floatExp q) ++
          '.' :: (if floatExp q = 0 then ['0']
            else padDigits (floatExp q) (floatMantissa q % 10 ^ floatExp q))) := by
      unfold floatFixedChars
      rw [if_pos hneg]
      simp
    rw [hchars]
    unfold parseSignedMantissa
    have hsplit : splitSign ('-' ::
        (natToDigits10 (floatMantissa q / 10 ^ floatExp q) ++
          '.' :: (if floatExp q = 0 then ['0']
            else padDigits (floatExp q) (floatMantissa q % 10 ^ floatExp q)))) =
        (true, natToDigits10 (floatMantissa q / 10 ^ floatExp q) ++
          '.' :: (if floatExp q = 0 then ['0']
            else padDigits (floatExp q) (floatMantissa q % 10 ^ floatExp q))) := by
      simp [splitSign]
    rw [hsplit]
    simp only [hPU, Option.map_some', if_true]
    rw [floatToStr_value q hden]
    have habs : ((q.num.natAbs : ℚ)) = -(q.num : ℚ) := by
      rw [Int.cast_natAbs, Int.cast_abs]
      exact abs_of_neg (by exact_mod_cast hneg)
    rw [habs, neg_div, neg_neg, Rat.num_div_den]
  · have hchars : floatFixedChars q =
        natToDigits10 (floatMantissa q / 10 ^ floatExp q) ++
          '.' :: (if floatExp q = 0 then ['0']
            else padDigits (floatExp q) (floatMantissa q % 10 ^ floatExp q)) := by
      unfold floatFixedChars
      rw [if_neg hneg]
      simp
    obtain ⟨c0, t0, hct⟩ := List.exists_cons_of_ne_nil
      (natToDigits10_ne_nil (floatMantissa q / 10 ^ floatExp q))
    have hc0mem : c0 ∈ natToDigits10 (floatMantissa q / 10 ^ floatExp q) := by
      rw [hct]
      exact List.mem_cons_self c0 t0
    obtain ⟨d, hd, hcd⟩ := natToDigits10_mem hc0mem
    have hminus : c0 ≠ '-' := by rw [hcd]; exact (digitChar_class d hd).2.2.2.1
    have hplus : c0 ≠ '+' := by rw [hcd]; exact (digitChar_class d hd).2.2.2.2.1
    rw [hchars]
    unfold parseSignedMantissa
    have hsplit : splitSign
        (natToDigits10 (floatMantissa q / 10 ^ floatExp q) ++
          '.' :: (if floatExp q = 0 then ['0']
            else padDigits (floatExp q) (floatMantissa q % 10 ^ floatExp q))) =
        (false, natToDigits10 (floatMantissa q / 10 ^ floatExp q) ++
          '.' :: (if floatExp q = 0 then ['0']
            else padDigits (floatExp q) (floatMantissa q % 10 ^ floatExp q))) := by
      rw [hct]
      simp only [List.cons_append, splitSign]
      rw [if_neg hminus, if_neg hplus]
    rw [hsplit]
    simp only [hPU, Option.map_some', if_false, Bool.false_eq_true]
    rw [floatToStr_value q hden]
    have habs : ((q.num.natAbs : ℚ)) = (q.num : ℚ) := by
      rw [Int.cast_natAbs, Int.cast_abs]
      exact abs_of_nonneg (by exact_mod_cast le_of_not_lt hneg)
    rw [habs, Rat.num_div_den]

/-- The round trip within fixed notation: a parsed value whose printed form
uses fixed (non-scientific) decimal notation is re-parsed unchanged. -/
theorem parse_numeric_value_roundtrip {x : String} {q : ℚ}
    (h : parse_numeric_value x = some q)
    (hfx : -4 ≤ decExp10 q ∧ decExp10 q < 16) :
    parse_numeric_value (floatToStr q) = some q := by
  obtain ⟨z, e, hq⟩ := parse_numeric_value_range h
  have hden := den_dvd_pow_floatExp q (den_dvd_of_div_pow hq)
  have hchars : floatToStrChars q = floatFixedChars q := by
    unfold floatToStrChars
    rw [if_pos hfx]
  rw [floatToStr, hchars,
    parse_numeric_value_clean (floatFixedChars q) (floatFixedChars_ne_nil q)
      (floatFixedChars_class q)]
  exact parseSignedMantissa_floatFixedChars q hden

/-- C5 (amended): numeric normalization treats parenthesized values as
negative and strips separators and currency symbols
(`parse_numeric_value "(1,234.50)" = -1234.50`), returns `None` for an
unparseable value (`"N/A"`), and re-parsing the printed form of a parsed
value returns the same value WHENEVER that printed form uses fixed decimal
notation, i.e. the value's decimal exponent lies in [-4, 16). Outside that
range `str` switches to scientific notation, whose 'e' and '+' the cleanup
regex deletes, and idempotence fails (floats are modelled as exact
rationals). -/
theorem C5_parse_numeric_value (x : String) (q : ℚ)
    (h : parse_numeric_value x = some q)
    (hfx : -4 ≤ decExp10 q ∧ decExp10 q < 16) :
    parse_numeric_value "(1,234.50)" = some (-1234.5) ∧
    parse_numeric_value "N/A" = none ∧
    parse_numeric_value (floatToStr q) = some q :=
  ⟨by decide, by decide, parse_numeric_value_roundtrip h hfx⟩

/-- Counterexample for C5 as stated: the parseable input "100000000000000000"
parses to 1e17, which prints in scientific notation as "1e+17"; the cleanup
regex strips 'e' and '+', so re-parsing yields 117, not the original value —
parse-of-str-of-parse is NOT the identity on every parseable input. -/
theorem C5_counterexample :
    parse_numeric_value "100000000000000000" = some (100000000000000000 : ℚ) ∧
    floatToStr (100000000000000000 : ℚ) = "1e+17" ∧
    parse_numeric_value (floatToStr (100000000000000000 : ℚ)) = some (117 : ℚ) ∧
    (117 : ℚ) ≠ (100000000000000000 : ℚ) :=
  ⟨by decide, by decide, by decide, by decide⟩

/-- Witness for C5 at the spec's example value, whose print is fixed
(its decimal exponent is 3). -/
theorem C5_witness :
    parse_numeric_value "(1,234.50)" = some (-1234.5) ∧
    parse_numeric_value "N/A" = none ∧
    parse_numeric_value (floatToStr (-1234.5)) = some (-1234.5) :=
  C5_parse_numeric_value "(1,234.50)" (-1234.5) (by decide) (by decide)

/-! ## src/SEC1.py — XBRL extraction (`parse_xbrl_filing`, lines 231-278)

`xml.etree.ElementTree` is abstracted to its result: an element found by
`root.find('.//us-gaap:C')` is the first entry for concept `C` in the
document's fact list, carrying its `scale` attribute and text. -/

/-- An XBRL fact element: the optional `scale` attribute and optional text. -/
structure XbrlElem where
  scale : Option String
  text : Option String
deriving DecidableEq, Repr

/-- An XBRL instance as the ordered list of its us-gaap facts. -/
def XbrlDoc : Type := List (String × XbrlElem)

/-- `root.find('.//us-gaap:' + concept)`: the first matching fact. -/
def xbrlFind (doc : XbrlDoc) (concept : String) : Option XbrlElem :=
  (List.find? (fun p => p.1 == concept) doc).map Prod.snd

/-- The concept table of src/SEC1.py lines 242-254, in insertion order. -/
def xbrl_concepts : List (String × String) :=
  [("Assets", "total_assets"), ("AssetsCurrent", "current_assets"),
   ("Liabilities", "total_liabilities"), ("LiabilitiesCurrent", "current_liabilities"),
   ("StockholdersEquity", "shareholders_equity"),
   ("RevenueFromContractWithCustomer", "revenue"), ("NetIncomeLoss", "net_income"),
   ("EarningsPerShareBasic", "eps_basic"), ("EarningsPerShareDiluted", "eps_diluted"),
   ("OperatingIncomeLoss", "operating_income"),
   ("CashAndCashEquivalentsAtCarryingValue", "cash")]

/-- The numeric value of one fact (src/SEC1.py lines 258-265): requires
truthy text, `int(elem.get('scale', '0'))` and
`float(elem.text.replace(',', ''))`, and stores `value * 10 ** scale`;
a `ValueError` in either conversion skips the fact. -/
def xbrlFactValue (elem : XbrlElem) : Option ℚ :=
  match elem.text with
  | none => none
  | some t =>
    if t = "" then none
    else
      match pyIntStr (elem.scale.getD "0"),
          pyFloatChars (t.data.filter fun c => c != ',') with
      | some sc, some v => some (v * (10 : ℚ) ^ sc)
      | _, _ => none

/-- The data dict built by the concept loop of src/SEC1.py lines 256-265:
one entry per recognized concept whose fact parses. -/
def xbrlData (doc : XbrlDoc) : List (String × ℚ) :=
  xbrl_concepts.filterMap fun ck =>
    match xbrlFind doc ck.1 with
    | some elem => (xbrlFactValue elem).map fun v => (ck.2, v)
    | none => none

/-- The `dei:DocumentPeriodEndDate` text when present and truthy
(src/SEC1.py lines 267-270). -/
def xbrlPeriod (periodElem : Option XbrlElem) : Option String :=
  match periodElem with
  | some p =>
    match p.text with
    | some t => if t ≠ "" then some t else none
    | none => none
  | none => none

/-- `parse_xbrl_filing` (src/SEC1.py lines 231-278): the collected data and
reporting period, or `None` when nothing at all was collected
(`return data if data else None`). -/
def parse_xbrl_filing (doc : XbrlDoc) (periodElem : Option XbrlElem) :
    Option (List (String × ℚ) × Option String) :=
  if xbrlData doc ≠ [] ∨ (xbrlPeriod periodElem).isSome
  then some (xbrlData doc, xbrlPeriod periodElem) else none

/-- C6: a fact of a recognized concept whose text parses is stored with the
declared scale factor applied as a power-of-ten multiplier
(`value * 10 ** scale`), and the scenario-C instance (a `NetIncomeLoss` fact
with scale "3" and text "5000") yields `net_income == 5000000`. -/
theorem C6_xbrl_scale_factor (doc : XbrlDoc) (pe : Option XbrlElem)
    (concept key : String) (elem : XbrlElem) (t : String) (sc : ℤ) (v : ℚ)
    (hck : (concept, key) ∈ xbrl_concepts)
    (hfind : xbrlFind doc concept = some elem)
    (htext : elem.text = some t) (hne : t ≠ "")
    (hsc : pyIntStr (elem.scale.getD "0") = some sc)
    (hv : pyFloatChars (t.data.filter fun c => c != ',') = some v) :
    (∃ r, parse_xbrl_filing doc pe = some r ∧ (key, v * (10 : ℚ) ^ sc) ∈ r.1) ∧
    parse_xbrl_filing [("NetIncomeLoss", ⟨some "3", some "5000"⟩)] none =
      some ([("net_income", 5000000)], none) := by
  constructor
  · have hval : xbrlFactValue elem = some (v * (10 : ℚ) ^ sc) := by
      simp only [xbrlFactValue, htext]
      rw [if_neg hne, hsc, hv]
    have hmemdata : (key, v * (10 : ℚ) ^ sc) ∈ xbrlData doc := by
      apply List.mem_filterMap.mpr
      refine ⟨(concept, key), hck, ?_⟩
      simp only [hfind, hval, Option.map_some']
    refine ⟨(xbrlData doc, xbrlPeriod pe), ?_, hmemdata⟩
    unfold parse_xbrl_filing
    rw [if_pos (Or.inl (List.ne_nil_of_mem hmemdata))]
  · decide

/-- Witness for C6: the general theorem applied to the scenario-C instance. -/
theorem C6_witness :
    ∃ r, parse_xbrl_filing [("NetIncomeLoss", ⟨some "3", some "5000"⟩)] none = some r ∧
      ("net_income", (5000 : ℚ) * (10 : ℚ) ^ (3 : ℤ)) ∈ r.1 :=
  (C6_xbrl_scale_factor [("NetIncomeLoss", ⟨some "3", some "5000"⟩)] none
    "NetIncomeLoss" "net_income" ⟨some "3", some "5000"⟩ "5000" 3 5000
    (by decide) (by decide) rfl (by decide) (by decide) (by decide)).1

/-! ## src/SEC1.py — `get_company_filings` (lines 92-136)

The JSON response is abstracted to its `filings.recent` columns; the HTTP
and CIK-validation prologue returns before this logic on failure. -/

/-- A `datetime.date`. -/
structure PyDate where
  year : Nat
  month : Nat
  day : Nat
deriving DecidableEq, Repr

/-- Python `date` comparison: lexicographic on (year, month, day). -/
def PyDate.ble (a b : PyDate) : Bool :=
  if a.year = b.year then
    (if a.month = b.month then decide (a.day ≤ b.day) else decide (a.month < b.month))
  else decide (a.year < b.year)

def isLeapYear (y : Nat) : Bool :=
  (y % 4 = 0 ∧ y % 100 ≠ 0) ∨ y % 400 = 0

def daysInMonth (y m : Nat) : Nat :=
  if m = 2 then (if isLeapYear y then 29 else 28)
  else if m = 4 ∨ m = 6 ∨ m = 9 ∨ m = 11 then 30 else 31

/-- `datetime.strptime(s, '%Y-%m-%d').date()`: three dash-separated digit
groups (up to 4/2/2 digits), month 1-12, day valid for the calendar month,
year at least 1; `None` models the `ValueError` path. -/
def parseDate (s : String) : Option PyDate :=
  match splitOnChar '-' s.data with
  | [ys, ms, ds] =>
    if ys ≠ [] ∧ ys.length ≤ 4 ∧ ys.all Char.isDigit ∧
       ms ≠ [] ∧ ms.length ≤ 2 ∧ ms.all Char.isDigit ∧
       ds ≠ [] ∧ ds.length ≤ 2 ∧ ds.all Char.isDigit then
      if 1 ≤ digitsVal ys ∧ 1 ≤ digitsVal ms ∧ digitsVal ms ≤ 12 ∧
         1 ≤ digitsVal ds ∧ digitsVal ds ≤ daysInMonth (digitsVal ys) (digitsVal ms)
      then some ⟨digitsVal ys, digitsVal ms, digitsVal ds⟩
      else none
    else none
  | _ => none

/-- The `filings.recent` columns of the submissions JSON. An absent optional
column corresponds to the Python default `[None] * len(form)`. -/
structure RecentFilings where
  accessionNumber : List String
  filingDate : List String
  form : List String
  reportDate : List (Option String)
  primaryDocument : List String
  primaryDocDescription : List (Option String)
deriving Repr

/-- One entry of the list `get_company_filings` builds (src/SEC1.py
lines 119-126). -/
structure Filing where
  form : String
  filingDate : PyDate
  reportDate : Option String
  accessionNumber : String
  primaryDocument : String
  primaryDocDescription : Option String
deriving DecidableEq, Repr

/-- One iteration of the loop of src/SEC1.py lines 114-128: any IndexError
or date ValueError hits the bare `except: continue` and yields nothing; a
record is built only when the form matches case-insensitively and the
parsed date lies in the inclusive range. -/
def processFiling (rf : RecentFilings) (form_type : String)
    (start_date end_date : PyDate) (i : Nat) : Option Filing :=
  match rf.filingDate[i]? with
  | none => none
  | some ds =>
    match parseDate ds with
    | none => none
    | some d =>
      match rf.form[i]? with
      | none => none
      | some f =>
        if pyUpper f = pyUpper form_type ∧ PyDate.ble start_date d = true ∧
            PyDate.ble d end_date = true then
          match rf.accessionNumber[i]?, rf.primaryDocument[i]?, rf.reportDate[i]?,
              rf.primaryDocDescription[i]? with
          | some acc, some pd, some rd, some pdd => some ⟨f, d, rd, acc, pd, pdd⟩
          | _, _, _, _ => none
        else none

/-- `get_company_filings` (src/SEC1.py lines 92-136) after the fetch: the
loop over `range(len(recent_filings['accessionNumber']))` followed by the
stable in-place sort by filing date, newest first (`list.sort` is stable;
insertion sort realises the same ordering). -/
def get_company_filings (rf : RecentFilings) (form_type : String)
    (start_date end_date : PyDate) : List Filing :=
  List.insertionSort (fun a b => PyDate.ble b.filingDate a.filingDate = true)
    ((List.range rf.accessionNumber.length).filterMap
      (processFiling rf form_type start_date end_date))

theorem PyDate.ble_total (a b : PyDate) :
    PyDate.ble a b = true ∨ PyDate.ble b a = true := by
  unfold PyDate.ble
  split_ifs <;> simp_all
  omega

theorem PyDate.ble_trans {a b c : PyDate} (h1 : PyDate.ble a b = true)
    (h2 : PyDate.ble b c = true) : PyDate.ble a c = true := by
  unfold PyDate.ble at *
  split_ifs at * <;> simp_all <;> omega

/-- What a produced loop entry guarantees: the index is in range, the form
matches case-insensitively, and the date lies in the inclusive window. -/
theorem processFiling_some {rf : RecentFilings} {ft : String} {sd ed : PyDate}
    {i : Nat} {f : Filing} (h : processFiling rf ft sd ed i = some f) :
    i < rf.accessionNumber.length ∧ pyUpper f.form = pyUpper ft ∧
    PyDate.ble sd f.filingDate = true ∧ PyDate.ble f.filingDate ed = true := by
  rcases hds : rf.filingDate[i]? with _ | ds
  · simp [processFiling, hds] at h
  rcases hd : parseDate ds with _ | d
  · simp [processFiling, hds, hd] at h
  rcases hf : rf.form[i]? with _ | fo
  · simp [processFiling, hds, hd, hf] at h
  by_cases hcond : pyUpper fo = pyUpper ft ∧ PyDate.ble sd d = true ∧
      PyDate.ble d ed = true
  · rcases hacc : rf.accessionNumber[i]? with _ | acc
    · simp [processFiling, hds, hd, hf, if_pos hcond, hacc] at h
    rcases hpd : rf.primaryDocument[i]? with _ | pd
    · simp [processFiling, hds, hd, hf, if_pos hcond, hacc, hpd] at h
    rcases hrd : rf.reportDate[i]? with _ | rd
    · simp [processFiling, hds, hd, hf, if_pos hcond, hacc, hpd, hrd] at h
    rcases hpdd : rf.primaryDocDescription[i]? with _ | pdd
    · simp [processFiling, hds, hd, hf, if_pos hcond, hacc, hpd, hrd, hpdd] at h
    have hfeq : (⟨fo, d, rd, acc, pd, pdd⟩ : Filing) = f := by
      simpa [processFiling, hds, hd, hf, if_pos hcond, hacc, hpd, hrd, hpdd] using h
    subst hfeq
    have hlen : (rf.accessionNumber[i]?).isSome := by rw [hacc]; rfl
    obtain ⟨hlt, -⟩ := List.getElem?_eq_some_iff.mp hacc
    exact ⟨hlt, hcond.1, hcond.2.1, hcond.2.2⟩
  · simp [processFiling, hds, hd, hf, if_neg hcond] at h

/-- C10: every filing `get_company_filings` returns matches the requested
form type case-insensitively and has its filing date inside the inclusive
[start_date, end_date] window; the result is sorted by filing date
descending; and every entry the loop successfully processes appears in the
result — an entry whose date fails to parse only skips itself, never the
lookup. -/
theorem C10_company_filings (rf : RecentFilings) (form_type : String)
    (start_date end_date : PyDate) :
    (∀ f ∈ get_company_filings rf form_type start_date end_date,
      pyUpper f.form = pyUpper form_type ∧
      PyDate.ble start_date f.filingDate = true ∧
      PyDate.ble f.filingDate end_date = true) ∧
    List.Sorted (fun a b => PyDate.ble b.filingDate a.filingDate = true)
      (get_company_filings rf form_type start_date end_date) ∧
    (∀ i f, processFiling rf form_type start_date end_date i = some f →
      f ∈ get_company_filings rf form_type start_date end_date) := by
  refine ⟨?_, ?_, ?_⟩
  · intro f hf
    rw [get_company_filings, List.mem_insertionSort] at hf
    obtain ⟨i, -, hp⟩ := List.mem_filterMap.mp hf
    exact (processFiling_some hp).2
  · haveI : IsTotal Filing (fun a b => PyDate.ble b.filingDate a.filingDate = true) :=
      ⟨fun a b => PyDate.ble_total b.filingDate a.filingDate⟩
    haveI : IsTrans Filing (fun a b => PyDate.ble b.filingDate a.filingDate = true) :=
      ⟨fun _ _ _ h1 h2 => PyDate.ble_trans h2 h1⟩
    exact List.sorted_insertionSort _ _
  · intro i f hp
    rw [get_company_filings, List.mem_insertionSort]
    exact List.mem_filterMap.mpr
      ⟨i, List.mem_range.mpr (processFiling_some hp).1, hp⟩

/-- Witness for C10: a lookup with one well-formed entry and one
unparseable-date entry returns the well-formed one. -/
theorem C10_witness :
    (⟨"10-q", ⟨2024, 2, 1⟩, none, "acc-1", "doc1.htm", none⟩ : Filing) ∈
      get_company_filings
        ⟨["acc-1", "acc-2"], ["2024-02-01", "bad-date"], ["10-q", "10-Q"],
          [none, none], ["doc1.htm", "doc2.htm"], [none, none]⟩
        "10-Q" ⟨2024, 1, 1⟩ ⟨2024, 12, 31⟩ :=
  (C10_company_filings
      ⟨["acc-1", "acc-2"], ["2024-02-01", "bad-date"], ["10-q", "10-Q"],
        [none, none], ["doc1.htm", "doc2.htm"], [none, none]⟩
      "10-Q" ⟨2024, 1, 1⟩ ⟨2024, 12, 31⟩).2.2 0
    ⟨"10-q", ⟨2024, 2, 1⟩, none, "acc-1", "doc1.htm", none⟩ (by decide)
